import Mathlib

/-!
Verification of the display-cache engine of `WaveClip.cpp` (wave and
spectrogram display caches of an audio clip).

The C++ code is shallowly embedded.  `double` values are modelled as exact
rationals (ℚ); `sampleCount` (a signed integer type) and pixel indices are
modelled as ℤ.  The backing sample store (`Sequence`), which the spec treats
as an external collaborator, is modelled abstractly by its interface: a
sample count and a bulk summarizer that may fail.  The C library `sqrt`
(used only to fill RMS values from the append buffer) is passed in as an
abstract function parameter; no claim depends on its values.
-/

namespace WaveClipSpec

/-- Truncation of a rational toward zero, as the C++ conversion from
`double` to `long` behaves. -/
def trunc (q : ℚ) : ℤ := if 0 ≤ q then ⌊q⌋ else ⌈q⌉

/-- The sub-list of `l` of length `n` starting at index `i`
(the contiguous slice `l[i .. i+n)`). -/
def slice (l : List α) (i n : ℤ) : List α := (l.drop i.toNat).take n.toNat

/-- Overwrite the elements of `arr` starting at index `i` with `vals`,
keeping the length of `arr` (the C++ in-place array writes). -/
def setSlice (arr : List α) (i : ℕ) (vals : List α) : List α :=
  (arr.take i ++ vals ++ arr.drop (i + vals.length)).take arr.length

/-- `WaveCache::InvalidRegion`: a closed pixel-index interval.  The C++
field `end` is renamed `stop` (a Lean keyword clash). -/
structure InvalidRegion where
  start : ℤ
  stop : ℤ
deriving DecidableEq, Repr

/-- The intersect-or-pixel-adjacent test of `WaveCache::AddInvalidRegion`:
`region.start <= invalEnd+1 && region.end >= invalStart-1`. -/
def touches (r : InvalidRegion) (s e : ℤ) : Bool :=
  decide (r.start ≤ e + 1) && decide (s - 1 ≤ r.stop)

/-- The same test applied between two stored regions (as in the second,
neighbour-merging pass). -/
def touchesR (a b : InvalidRegion) : Bool := touches a b.start b.stop

/-- Take the union of a stored region with the incoming range, in place
(the first loop of `AddInvalidRegion`). -/
def unionInto (r : InvalidRegion) (s e : ℤ) : InvalidRegion :=
  ⟨min r.start s, max r.stop e⟩

/-- Union of two stored regions (the second pass of `AddInvalidRegion`). -/
def unionR (r p : InvalidRegion) : InvalidRegion :=
  ⟨min r.start p.start, max r.stop p.stop⟩

/-- First loop of `AddInvalidRegion`: linear scan for the first region that
intersects or is pixel-adjacent to `[s, e]`; union the new range into it.
`none` if no region touches. -/
def mergeFirst : List InvalidRegion → ℤ → ℤ → Option (List InvalidRegion)
  | [], _, _ => none
  | r :: rs, s, e =>
    if touches r s e then some (unionInto r s e :: rs)
    else
      match mergeFirst rs s e with
      | none => none
      | some rs2 => some (r :: rs2)

/-- The insertion step of `AddInvalidRegion`: union into the first touching
region, else prepend a new region at the front of the container. -/
def insertRegion (regs : List InvalidRegion) (s e : ℤ) : List InvalidRegion :=
  match mergeFirst regs s e with
  | some regs2 => regs2
  | none => ⟨s, e⟩ :: regs

/-- Second pass of `AddInvalidRegion`, which walks index-adjacent pairs,
merging touching neighbours (with the vector-erase and cursor-reset
semantics of the C++ loop) and exiting early once a region starts past
`invalEnd`.  `prev` is the element at cursor position `i - 1`. -/
def mergeAdjacent (invalEnd : ℤ) : InvalidRegion → List InvalidRegion → List InvalidRegion
  | prev, [] => [prev]
  | prev, r :: rs =>
    if touchesR r prev then
      match rs with
      | [] => [unionR r prev]
      | r2 :: rs2 =>
        if invalEnd < r2.start then unionR r prev :: r2 :: rs2
        else mergeAdjacent invalEnd (unionR r prev) (r2 :: rs2)
    else
      if invalEnd < r.start then prev :: r :: rs
      else prev :: mergeAdjacent invalEnd r rs

/-- The whole second pass, starting the cursor at index 1. -/
def mergePass (regs : List InvalidRegion) (invalEnd : ℤ) : List InvalidRegion :=
  match regs with
  | [] => []
  | r :: rs => mergeAdjacent invalEnd r rs

/-- Insert/merge a clipped pixel range, then run the neighbour-merge pass
(the two loops of `AddInvalidRegion` after clipping). -/
def insertAndMerge (regs : List InvalidRegion) (s e : ℤ) : List InvalidRegion :=
  mergePass (insertRegion regs s e) e

/-- `WaveCache`: one materialized waveform view.  Vector fields become
lists; `where` (a Lean keyword) becomes `whereArr`. -/
structure WaveCache where
  dirty : ℤ
  len : ℤ
  start : ℚ
  pps : ℚ
  rate : ℚ
  whereArr : List ℤ
  min : List ℚ
  max : List ℚ
  rms : List ℚ
  bl : List ℤ
  numODPixels : ℤ
  regions : List InvalidRegion
deriving DecidableEq, Repr

/-- Pixel index of a starting sample position, as `AddInvalidRegion`
computes it: `(sampleStart - start*rate) / samplesPerPixel` truncated. -/
def WaveCache.invalStartOf (c : WaveCache) (sampleStart : ℤ) : ℤ :=
  trunc (((sampleStart : ℚ) - c.start * c.rate) / (c.rate / c.pps))

/-- Pixel index of an ending sample position, as `AddInvalidRegion`
computes it (one pixel is added to cover the end). -/
def WaveCache.invalEndOf (c : WaveCache) (sampleEnd : ℤ) : ℤ :=
  trunc (((sampleEnd : ℚ) - c.start * c.rate) / (c.rate / c.pps)) + 1

/-- The boundary clipping of `AddInvalidRegion` (written exactly as the
chained `if`/`else if` of the source). -/
def clipPixel (len x : ℤ) : ℤ :=
  if x < 0 then 0 else if len < x then len else x

/-- `WaveCache::AddInvalidRegion`: convert the sample range to pixels with
the cache's own pitch, no-op on zero pitch or when both pixel endpoints are
off the cache on the same side, clip, then insert/merge and run the
neighbour-merge pass. -/
def WaveCache.AddInvalidRegion (c : WaveCache) (sampleStart sampleEnd : ℤ) : WaveCache :=
  if c.pps = 0 then c
  else if (c.invalStartOf sampleStart < 0 ∧ c.invalEndOf sampleEnd < 0) ∨
      (c.len ≤ c.invalStartOf sampleStart ∧ c.len ≤ c.invalEndOf sampleEnd) then c
  else
    { c with regions :=
        (insertAndMerge c.regions (clipPixel c.len (c.invalStartOf sampleStart))
          (clipPixel c.len (c.invalEndOf sampleEnd))) }

/-- The invariant claimed of the region set: pairwise neither overlapping
nor within one pixel of each other. -/
def separated (regs : List InvalidRegion) : Prop :=
  List.Pairwise (fun a b => touchesR a b = false) regs

instance (regs : List InvalidRegion) : Decidable (separated regs) := by
  unfold separated
  exact inferInstance

/-- All regions in the set are proper intervals. -/
def properRegs (regs : List InvalidRegion) : Prop :=
  ∀ r ∈ regs, r.start ≤ r.stop

/-- The skip condition of `findCorrection`: the old and new sample ranges
are disjoint, or the denominator rounds off to zero. -/
def degenerateCond (oldWhere : List ℤ) (oldLen newLen : ℤ)
    (t0 rate samplesPerPixel : ℚ) : Prop :=
  ((oldWhere.getD 1 0 : ℚ) - samplesPerPixel) + oldLen * samplesPerPixel ≤ t0 * rate ∨
  t0 * rate + newLen * samplesPerPixel ≤ (oldWhere.getD 1 0 : ℚ) - samplesPerPixel ∨
  (((oldWhere.getD 1 0 : ℚ) - samplesPerPixel) + oldLen * samplesPerPixel) -
      ((oldWhere.getD 1 0 : ℚ) - samplesPerPixel) < 1/2

instance (oldWhere : List ℤ) (oldLen newLen : ℤ) (t0 rate samplesPerPixel : ℚ) :
    Decidable (degenerateCond oldWhere oldLen newLen t0 rate samplesPerPixel) := by
  unfold degenerateCond
  exact inferInstance

/-- The anonymous-namespace helper `findCorrection` of `WaveClip.cpp`:
align a new pixel grid against the old cache's mapping.  Returns
`(oldX0, correction)`. -/
def findCorrection (oldWhere : List ℤ) (oldLen newLen : ℤ)
    (t0 rate samplesPerPixel : ℚ) : ℤ × ℚ :=
  let oldWhere0 : ℚ := (oldWhere.getD 1 0 : ℚ) - samplesPerPixel
  let oldWhereLast : ℚ := oldWhere0 + oldLen * samplesPerPixel
  let denom : ℚ := oldWhereLast - oldWhere0
  let guessWhere0 : ℚ := t0 * rate
  if degenerateCond oldWhere oldLen newLen t0 rate samplesPerPixel then
    (oldLen, 0)
  else
    let oldX0 : ℤ := ⌊1/2 + oldLen * (guessWhere0 - oldWhere0) / denom⌋
    let where0 : ℚ := oldWhere0 + (oldX0 : ℚ) * samplesPerPixel
    let correction0 : ℚ := where0 - guessWhere0
    (oldX0, max (-samplesPerPixel) (min samplesPerPixel correction0))

/-- The anonymous-namespace helper `fillWhere` of `WaveClip.cpp`:
populate the pixel-to-sample mapping with `len + 1` entries, forcing the
first entry non-negative. -/
def fillWhere (len : ℤ) (bias correction t0 rate samplesPerPixel : ℚ) : List ℤ :=
  (List.range (1 + len).toNat).map fun (x : ℕ) =>
    if x = 0 then max 0 ⌊1/2 + correction + bias + t0 * rate⌋
    else ⌊(1/2 + correction + bias + t0 * rate) + (x : ℚ) * samplesPerPixel⌋

/-- `WaveCache::CountODPixels`: count of `bl` entries below zero in the
column range `[s, e)` (a negative block status marks a column whose source
block is still being decoded on demand). -/
def countODPixels (bl : List ℤ) (s e : ℤ) : ℤ :=
  ((bl.drop s.toNat).take (e - s).toNat).countP (fun v => decide (v < 0))

/-- The external Sample Sequence collaborator, modelled at its interface:
a committed sample count and the bulk summarizer
`Sequence::GetWaveDisplay(min,max,rms,bl,len,where)`, which reads `len+1`
entries of the mapping and either fails or yields the four per-column
arrays of length `len`. -/
structure Sequence where
  numSamples : ℤ
  waveDisplay : ℤ → List ℤ → Option (List ℚ × List ℚ × List ℚ × List ℤ)

/-- `WaveCache::LoadInvalidRegion`: recompute one tracked region's columns
from the Sequence, optionally maintaining the on-demand pixel count by
differencing the count over the touched range only.  The C++ ignores the
summarizer's return value here; on failure the arrays stay as they are. -/
def WaveCache.loadInvalidRegion (seq : Sequence) (updateODCount : Bool)
    (c : WaveCache) (r : InvalidRegion) : WaveCache :=
  let invStart := r.start
  let invEnd := r.stop
  let before := countODPixels c.bl invStart invEnd
  match seq.waveDisplay (invEnd - invStart) (slice c.whereArr invStart (invEnd - invStart + 1)) with
  | none => c
  | some (mn, mx, rm, blv) =>
    let c2 := { c with
      min := setSlice c.min invStart.toNat mn,
      max := setSlice c.max invStart.toNat mx,
      rms := setSlice c.rms invStart.toNat rm,
      bl := setSlice c.bl invStart.toNat blv }
    if updateODCount then
      { c2 with numODPixels :=
          c2.numODPixels - (before - countODPixels c2.bl invStart invEnd) }
    else c2

/-- `WaveCache::LoadInvalidRegions`: drain every tracked region in order. -/
def WaveCache.loadInvalidRegions (seq : Sequence) (updateODCount : Bool)
    (c : WaveCache) : WaveCache :=
  c.regions.foldl (WaveCache.loadInvalidRegion seq updateODCount) c

/-- `WaveCache::ClearInvalidRegions`. -/
def WaveCache.clearRegions (c : WaveCache) : WaveCache := { c with regions := [] }

/-- The parameterized `WaveCache` constructor: arrays sized to the view
(`len + 1` mapping entries), the on-demand count recounted over the
freshly zeroed block-status array. -/
def WaveCache.fresh (len : ℤ) (pixelsPerSecond rate t0 : ℚ) (dirty : ℤ) : WaveCache :=
  { dirty := dirty, len := len, start := t0, pps := pixelsPerSecond, rate := rate,
    whereArr := List.replicate (1 + len).toNat 0,
    min := List.replicate len.toNat 0,
    max := List.replicate len.toNat 0,
    rms := List.replicate len.toNat 0,
    bl := List.replicate len.toNat 0,
    numODPixels := countODPixels (List.replicate len.toNat 0) 0 len,
    regions := [] }

/-- The default `WaveCache` constructor (`dirty = -1`, `len = -1`,
empty arrays): matches no request. -/
def WaveCache.initial : WaveCache :=
  { dirty := -1, len := -1, start := -1, pps := 0, rate := -1,
    whereArr := [], min := [], max := [], rms := [], bl := [],
    numODPixels := 0, regions := [] }

/-- The `WaveClip` state needed by the waveform-display path: current
dirty generation, sample rate, backing Sequence, the not-yet-committed
append buffer (as floats), and the owned wave cache. -/
structure WaveClip where
  dirty : ℤ
  rate : ℚ
  seq : Sequence
  appendBuffer : List ℚ
  cache : WaveCache

/-- The tolerant pitch comparison of `WaveClip::GetWaveDisplay`:
accumulated time difference over all requested pixels below one sample
period. -/
def ppsMatchB (c : WaveCache) (rate pps : ℚ) (numPixels : ℤ) : Bool :=
  decide (|1 / pps - 1 / c.pps| * (numPixels : ℚ) < 1 / rate)

/-- The `match` condition of `WaveClip::GetWaveDisplay`: tolerant pitch
match, positive cached length, same dirty generation. -/
def matchB (c : WaveCache) (dirty : ℤ) (rate pps : ℚ) (numPixels : ℤ) : Bool :=
  ppsMatchB c rate pps numPixels && decide (0 < c.len) && decide (c.dirty = dirty)

/-- The complete-hit condition of `WaveClip::GetWaveDisplay`: `match` plus
equal start time and sufficient cached length. -/
def fullHitB (c : WaveCache) (dirty : ℤ) (rate pps : ℚ) (numPixels : ℤ) (t0 : ℚ) : Bool :=
  matchB c dirty rate pps numPixels && decide (c.start = t0) && decide (numPixels ≤ c.len)

/-- The scan `for (a = p0; a < p1; ++a) if (where[a+1] > numSamples) break;`
returning the first column whose sample range goes past the committed
Sequence length, else `p1`. -/
def findA (whereArr : List ℤ) (numSamples p0 p1 : ℤ) : ℤ :=
  match (List.range (p1 - p0).toNat).find?
      (fun k => decide (numSamples < whereArr.getD (p0 + (k : ℤ) + 1).toNat 0)) with
  | some k => p0 + (k : ℤ)
  | none => p1

/-- Mutable state threaded through the append-buffer column loop. -/
structure ABState where
  min : List ℚ
  max : List ℚ
  rms : List ℚ
  bl : List ℤ
  didUpdate : Bool

/-- The append-buffer loop of `WaveClip::GetWaveDisplay`: columns `[a, p1)`
whose sample ranges overlap the in-memory append buffer get min/max/RMS
synthesized from the buffer and their block status forced to 1.  `sqrtQ`
stands for the C library `sqrt`. -/
def appendBufLoop (sqrtQ : ℚ → ℚ) (appendBuf : List ℚ) (numSamples : ℤ)
    (whereArr : List ℤ) (a p1 : ℤ) (st0 : ABState) : ABState :=
  (List.range (p1 - a).toNat).foldl
    (fun st k =>
      let i : ℤ := a + (k : ℤ)
      let left : ℤ := max 0 (whereArr.getD i.toNat 0 - numSamples)
      let right : ℤ := min (appendBuf.length : ℤ) (whereArr.getD (i + 1).toNat 0 - numSamples)
      if left < right then
        match slice appendBuf left (right - left) with
        | [] => st
        | v :: rest =>
          let mn := rest.foldl min v
          let mx := rest.foldl max v
          let sumsq := rest.foldl (fun s w => s + w * w) (v * v)
          { min := st.min.set i.toNat mn,
            max := st.max.set i.toNat mx,
            rms := st.rms.set i.toNat (sqrtQ (sumsq / ((right - left : ℤ) : ℚ))),
            bl := st.bl.set i.toNat 1,
            didUpdate := true }
      else st)
    st0

/-- The cache-rebuild stage of `WaveClip::GetWaveDisplay` on a non-complete
hit: build a fresh cache sized to the request, fill its mapping (with the
correction from the old cache when the generations and pitches match), copy
the overlapping column range from the drained old cache, then satisfy
columns landing in the append buffer.  Returns the new cache and the final
range `[p0, p1)` still to be fetched from the Sequence. -/
def missRebuild (sqrtQ : ℚ → ℚ) (clip : WaveClip) (numPixels : ℤ) (t0 pps : ℚ) :
    WaveCache × ℤ × ℤ :=
  let c := clip.cache
  let samplesPerPixel := clip.rate * (1 / pps)
  let m := matchB c clip.dirty clip.rate pps numPixels
  let fc := if m then findCorrection c.whereArr c.len numPixels t0 clip.rate samplesPerPixel
            else (0, 0)
  let oldX0 := fc.1
  let correction := fc.2
  let copyBegin := if m then min numPixels (max 0 (-oldX0)) else 0
  let copyEnd := if m then min numPixels (copyBegin + c.len - max 0 oldX0) else 0
  let base := WaveCache.fresh numPixels pps clip.rate t0 clip.dirty
  let base := { base with whereArr := fillWhere numPixels 0 correction t0 clip.rate samplesPerPixel }
  let afterCopy :=
    if copyBegin < copyEnd then
      let oldD := WaveCache.loadInvalidRegions clip.seq false c
      let srcIdx := copyBegin + oldX0
      let n := copyEnd - copyBegin
      { base with
        min := setSlice base.min copyBegin.toNat (slice oldD.min srcIdx n),
        max := setSlice base.max copyBegin.toNat (slice oldD.max srcIdx n),
        rms := setSlice base.rms copyBegin.toNat (slice oldD.rms srcIdx n),
        bl := setSlice base.bl copyBegin.toNat (slice oldD.bl srcIdx n) }
    else base
  let p0 : ℤ := if 0 < copyBegin then 0 else copyEnd
  let p1 : ℤ := if numPixels ≤ copyEnd then copyBegin else numPixels
  let a := findA afterCopy.whereArr clip.seq.numSamples p0 p1
  let st := appendBufLoop sqrtQ clip.appendBuffer clip.seq.numSamples afterCopy.whereArr a p1
      ⟨afterCopy.min, afterCopy.max, afterCopy.rms, afterCopy.bl, false⟩
  let p1f := if st.didUpdate then a else p1
  ({ afterCopy with min := st.min, max := st.max, rms := st.rms, bl := st.bl }, p0, p1f)

/-- The arrays handed back to the caller of `GetWaveDisplay`. -/
structure WaveDisplayOut where
  min : List ℚ
  max : List ℚ
  rms : List ℚ
  bl : List ℤ
  whereArr : List ℤ

/-- The outcome of `WaveClip::GetWaveDisplay`: the boolean return, the
display arrays (absent on failure), the `isLoadingOD` out-parameter, and
the updated clip state. -/
structure GWDResult where
  success : Bool
  display : Option WaveDisplayOut
  isLoadingOD : Bool
  clip : WaveClip

/-- `WaveClip::GetWaveDisplay` (the cache-owning path, the one taken when
the caller did not supply its own scratch buffers): on a complete hit,
drain and clear the invalid regions and return the cached arrays; else
rebuild and fetch the remaining gap from the Sequence, failing if the
Sequence summarizer fails. -/
def GetWaveDisplay (sqrtQ : ℚ → ℚ) (clip : WaveClip) (numPixels : ℤ) (t0 pps : ℚ) :
    GWDResult :=
  if fullHitB clip.cache clip.dirty clip.rate pps numPixels t0 then
    let c2 := WaveCache.clearRegions
        (WaveCache.loadInvalidRegions clip.seq true clip.cache)
    ⟨true, some ⟨c2.min, c2.max, c2.rms, c2.bl, c2.whereArr⟩,
      decide (0 < c2.numODPixels), { clip with cache := c2 }⟩
  else
    let reb := missRebuild sqrtQ clip numPixels t0 pps
    let nc := reb.1
    let p0 := reb.2.1
    let p1 := reb.2.2
    if p0 < p1 then
      match clip.seq.waveDisplay (p1 - p0) (slice nc.whereArr p0 (p1 - p0 + 1)) with
      | none => ⟨false, none, false, { clip with cache := nc }⟩
      | some (mn, mx, rm, blv) =>
        let nc2 := { nc with
          min := setSlice nc.min p0.toNat mn,
          max := setSlice nc.max p0.toNat mx,
          rms := setSlice nc.rms p0.toNat rm,
          bl := setSlice nc.bl p0.toNat blv }
        ⟨true, some ⟨nc2.min, nc2.max, nc2.rms, nc2.bl, nc2.whereArr⟩,
          decide (0 < nc2.numODPixels), { clip with cache := nc2 }⟩
    else
      ⟨true, some ⟨nc.min, nc.max, nc.rms, nc.bl, nc.whereArr⟩,
        decide (0 < nc.numODPixels), { clip with cache := nc }⟩

/-- The spectrogram algorithm selector of `SpectrogramSettings`. -/
inductive SpecAlgorithm where
  | algSTFT
  | algReassignment
  | algPitchEAC
deriving DecidableEq, Repr

/-- The spectrogram view parameters consulted by the cache. -/
structure SpectrogramSettings where
  windowType : ℤ
  windowSize : ℤ
  zeroPaddingFactor : ℤ
  frequencyGain : ℤ
  algorithm : SpecAlgorithm
deriving DecidableEq, Repr

/-- `SpecCache`: one materialized spectrogram view with its parameters, a
flat `len × half` log-power buffer and a `len + 1` sample mapping. -/
structure SpecCache where
  dirty : ℤ
  len : ℤ
  start : ℚ
  pps : ℚ
  windowType : ℤ
  windowSize : ℤ
  zeroPaddingFactor : ℤ
  frequencyGain : ℤ
  algorithm : SpecAlgorithm
  freq : List ℚ
  whereArr : List ℤ
deriving DecidableEq, Repr

/-- `SpecCache::Matches`: tolerant pitch match (over the cache's own
length) plus equality of dirty generation and of every view parameter. -/
def SpecCache.Matches (c : SpecCache) (dirty : ℤ) (pixelsPerSecond : ℚ)
    (settings : SpectrogramSettings) (rate : ℚ) : Bool :=
  decide (|1 / pixelsPerSecond - 1 / c.pps| * (c.len : ℚ) < 1 / rate) &&
  decide (c.dirty = dirty) &&
  decide (c.windowType = settings.windowType) &&
  decide (c.windowSize = settings.windowSize) &&
  decide (c.zeroPaddingFactor = settings.zeroPaddingFactor) &&
  decide (c.frequencyGain = settings.frequencyGain) &&
  decide (c.algorithm = settings.algorithm)

/-- The `WaveClip` state needed by the spectrogram path. -/
structure SpecClip where
  dirty : ℤ
  rate : ℚ
  offset : ℚ
  numSamples : ℤ
  settings : SpectrogramSettings
  specCache : SpecCache
deriving DecidableEq, Repr

/-- The zero-padding factor actually used: forced to 1 for the
autocorrelation algorithm. -/
def adjustedZPF (settings : SpectrogramSettings) : ℤ :=
  if settings.algorithm = SpecAlgorithm.algPitchEAC then 1 else settings.zeroPaddingFactor

/-- Half the FFT length (`fftLen = windowSize * zeroPaddingFactor`),
the number of frequency bins per column. -/
def specHalf (settings : SpectrogramSettings) : ℤ :=
  settings.windowSize * adjustedZPF settings / 2

/-- The `match` condition of `WaveClip::GetSpectrogram` before the
reassignment override: positive cached length and `SpecCache::Matches`. -/
def specMatchB (clip : SpecClip) (pps : ℚ) : Bool :=
  decide (0 < clip.specCache.len) &&
  SpecCache.Matches clip.specCache clip.dirty pps clip.settings clip.rate

/-- The complete-hit condition of `WaveClip::GetSpectrogram`. -/
def specFullHitB (clip : SpecClip) (numPixels : ℤ) (t0 pps : ℚ) : Bool :=
  specMatchB clip pps && decide (clip.specCache.start = t0) &&
  decide (numPixels ≤ clip.specCache.len)

/-- `WaveClip::GetSpectrogram`, with `SpecCache::Populate` abstracted as a
parameter `populate copyBegin copyEnd numPixels whereArr freq` (its body
performs windowed FFTs over floating-point samples; every theorem below
holds for all of its behaviours).  Returns the boolean result (`false`
means the request was answered entirely from the cache), the spectrogram
buffer, the mapping, and the updated clip. -/
def GetSpectrogram (populate : ℤ → ℤ → ℤ → List ℤ → List ℚ → List ℚ)
    (clip : SpecClip) (numPixels : ℤ) (t0 pps : ℚ) :
    Bool × List ℚ × List ℤ × SpecClip :=
  let settings := clip.settings
  let half := specHalf settings
  let c := clip.specCache
  if specFullHitB clip numPixels t0 pps then
    (false, c.freq, c.whereArr, clip)
  else
    let m2 := specMatchB clip pps &&
      !(decide (settings.algorithm = SpecAlgorithm.algReassignment))
    let samplesPerPixel := clip.rate * (1 / pps)
    let fc := if m2 then findCorrection c.whereArr c.len numPixels t0 clip.rate samplesPerPixel
              else (0, 0)
    let oldX0 := fc.1
    let correction := fc.2
    let copyBegin := if m2 then min numPixels (max 0 (-oldX0)) else 0
    let copyEnd := if m2 then min numPixels (copyBegin + c.len - max 0 oldX0) else 0
    let newWhere := fillWhere numPixels (1/2) correction t0 clip.rate samplesPerPixel
    let freq0 : List ℚ := List.replicate (half * numPixels).toNat 0
    let freq1 := if copyBegin < copyEnd then
        setSlice freq0 (half * copyBegin).toNat
          (slice c.freq (half * (copyBegin + oldX0)) (half * (copyEnd - copyBegin)))
      else freq0
    let freqF := populate copyBegin copyEnd numPixels newWhere freq1
    let newCache : SpecCache :=
      { dirty := clip.dirty, len := numPixels, start := t0, pps := pps,
        windowType := settings.windowType, windowSize := settings.windowSize,
        zeroPaddingFactor := adjustedZPF settings,
        frequencyGain := settings.frequencyGain, algorithm := settings.algorithm,
        freq := freqF, whereArr := newWhere }
    (true, freqF, newWhere, { clip with specCache := newCache })

/-- Modelled from the spec: `WaveClip::MarkChanged` is declared in
`WaveClip.h`, which is not part of the sources here; the spec states that
every mutation funnels through "a single MarkChanged step incrementing
dirty" and that the counter is monotonically incrementing. -/
def MarkChanged (dirty : ℤ) : ℤ := dirty + 1

/-- Dirty-counter effect of `WaveClip::InsertSilence`: the Sequence
operation's outcome is abstracted as `ok`; `MarkChanged` runs only on
success. -/
def InsertSilenceDirty (ok : Bool) (dirty : ℤ) : Bool × ℤ :=
  if ok then (true, MarkChanged dirty) else (false, dirty)

/-- Dirty-counter effect of `WaveClip::Clear` (MarkChanged on success). -/
def ClearDirty (ok : Bool) (dirty : ℤ) : Bool × ℤ :=
  if ok then (true, MarkChanged dirty) else (false, dirty)

/-- Dirty-counter effect of `WaveClip::Paste` (MarkChanged on success). -/
def PasteDirty (ok : Bool) (dirty : ℤ) : Bool × ℤ :=
  if ok then (true, MarkChanged dirty) else (false, dirty)

/-- Dirty-counter effect of `WaveClip::Append` (MarkChanged on success). -/
def AppendDirty (ok : Bool) (dirty : ℤ) : Bool × ℤ :=
  if ok then (true, MarkChanged dirty) else (false, dirty)

/-- Dirty-counter effect of `WaveClip::SetSamples`: the source calls
`MarkChanged` regardless of the Sequence result. -/
def SetSamplesDirty (ok : Bool) (dirty : ℤ) : Bool × ℤ :=
  (ok, MarkChanged dirty)

/-! ## Claim C1: monotonicity of the freshly built mapping -/

/-- C1 (counterexample): the claim admits any start time, but a negative
`t0` makes `fillWhere` clamp only the first entry to 0 while the second
entry stays negative: at pixel count 1, pitch `pps = 1`, `rate = 1`,
`t0 = -10`, the fresh mapping (bias 0, correction 0) is `[0, -9]`, which is
not non-decreasing. -/
theorem C1_counterexample :
    fillWhere 1 0 0 (-10) 1 ((1:ℚ)/1) = [0, -9] ∧
    ¬ (List.Chain' (· ≤ ·) (fillWhere 1 0 0 (-10) 1 ((1:ℚ)/1)) ∧
       0 ≤ (fillWhere 1 0 0 (-10) 1 ((1:ℚ)/1)).getD 0 0) := by
  have h : fillWhere 1 0 0 (-10) 1 ((1:ℚ)/1) = [0, -9] := by
    norm_num [fillWhere, List.range_succ]
    decide
  rw [h]
  refine ⟨rfl, fun hc => ?_⟩
  have h9 := (List.chain'_cons.mp hc.1).1
  omega

/-- C1 (amended): for every valid request with NON-NEGATIVE start time
(positive pixel count, positive pixels-per-second, positive rate), and for
the bias and correction values the rebuild paths supply (bias 0 or 1/2,
correction at least `-samplesPerPixel` as `findCorrection` guarantees),
the mapping built by `fillWhere` is monotonically non-decreasing over its
`len + 1` entries and its first entry is non-negative. -/
theorem C1_fillWhere_monotone (len : ℤ) (pps rate t0 bias correction : ℚ)
    (hlen : 1 ≤ len) (hpps : 0 < pps) (hrate : 0 < rate) (ht0 : 0 ≤ t0)
    (hbias : 0 ≤ bias) (hcorr : -(rate / pps) ≤ correction) :
    List.Chain' (· ≤ ·) (fillWhere len bias correction t0 rate (rate / pps)) ∧
    0 ≤ (fillWhere len bias correction t0 rate (rate / pps)).getD 0 0 := by
  have hspp : (0:ℚ) ≤ rate / pps := le_of_lt (div_pos hrate hpps)
  have ht0r : (0:ℚ) ≤ t0 * rate := mul_nonneg ht0 (le_of_lt hrate)
  have hw0spp : (0:ℚ) ≤ (1/2 + correction + bias + t0 * rate) + rate / pps := by linarith
  obtain ⟨m, hm⟩ := Nat.exists_eq_succ_of_ne_zero (n := (1 + len).toNat) (by omega)
  constructor
  · rw [fillWhere, List.chain'_map, hm, List.chain'_range_succ]
    intro i hi
    rcases Nat.eq_zero_or_pos i with hi0 | hi1
    · subst hi0
      rw [if_pos rfl, if_neg (Nat.succ_ne_zero 0)]
      refine max_le ?_ ?_
      · rw [Int.floor_nonneg]
        push_cast
        linarith
      · apply Int.floor_mono
        push_cast
        linarith
    · rw [if_neg (by omega), if_neg (by omega)]
      apply Int.floor_mono
      have hle : ((i:ℚ)) ≤ ((i:ℚ) + 1) := by linarith
      have hmul := mul_le_mul_of_nonneg_right hle hspp
      push_cast
      linarith
  · rw [fillWhere, hm, List.range_succ_eq_map, List.map_cons, List.getD_cons_zero,
      if_pos rfl]
    exact le_max_left _ _

/-- C1 (witness for the amended statement): a one-pixel request from time
zero at unit pitch. -/
theorem C1_witness :
    (1:ℤ) ≤ 1 ∧ (0:ℚ) < 1 ∧ (0:ℚ) < 1 ∧ (0:ℚ) ≤ 0 ∧ (0:ℚ) ≤ 0 ∧
    -((1:ℚ) / 1) ≤ 0 ∧
    (List.Chain' (· ≤ ·) (fillWhere 1 0 0 0 1 ((1:ℚ) / 1)) ∧
     0 ≤ (fillWhere 1 0 0 0 1 ((1:ℚ) / 1)).getD 0 0) :=
  ⟨le_refl 1, one_pos, one_pos, le_refl 0, le_refl 0, by norm_num,
   C1_fillWhere_monotone 1 1 1 0 0 0 (le_refl 1) one_pos one_pos (le_refl 0)
     (le_refl 0) (by norm_num)⟩

/-! ## Claim C5: degenerate case of findCorrection -/

/-- C5: whenever the old and new sample ranges are disjoint or the derived
denominator (the old cache's length in samples) rounds off to less than 1,
`findCorrection` returns `oldX0 = oldLen` and `correction = 0`. -/
theorem C5_findCorrection_degenerate (oldWhere : List ℤ) (oldLen newLen : ℤ)
    (t0 rate samplesPerPixel : ℚ)
    (h : degenerateCond oldWhere oldLen newLen t0 rate samplesPerPixel) :
    findCorrection oldWhere oldLen newLen t0 rate samplesPerPixel = (oldLen, 0) := by
  unfold findCorrection
  simp [h]

/-- C5 (witness): a cache of length 0 has denominator 0, which is
degenerate. -/
theorem C5_witness :
    degenerateCond [0, 0] 0 1 0 1 1 ∧ findCorrection [0, 0] 0 1 0 1 1 = (0, 0) :=
  ⟨by norm_num [degenerateCond],
   C5_findCorrection_degenerate [0, 0] 0 1 0 1 1 (by norm_num [degenerateCond])⟩

/-! ## Claim C6: bound on the correction -/

/-- C6 (counterexample): the claim bounds the correction by one
sample-period (one sample, since the correction is measured in samples),
but the source clamps only to `±samplesPerPixel`.  With `oldWhere = [0,10]`,
`oldLen = newLen = 1`, `t0 = 1/2`, `rate = 10` and `samplesPerPixel = 10`
(a non-degenerate input), the correction is 5 samples, far above one. -/
theorem C6_counterexample :
    ¬ degenerateCond [0, 10] 1 1 (1/2) 10 10 ∧
    (findCorrection [0, 10] 1 1 (1/2) 10 10).2 = 5 ∧
    ¬ |(findCorrection [0, 10] 1 1 (1/2) 10 10).2| ≤ 1 := by
  have hd : ¬ degenerateCond [0, 10] 1 1 (1/2) 10 10 := by norm_num [degenerateCond]
  have hf : findCorrection [0, 10] 1 1 (1/2) 10 10 = (1, 5) := by
    unfold findCorrection
    rw [if_neg hd]
    norm_num
  refine ⟨hd, ?_, ?_⟩
  · rw [hf]
  · rw [hf]
    norm_num

/-- C6 (amended): the correction computed by `findCorrection` is bounded in
magnitude by `samplesPerPixel` — one pixel's worth of samples, not one
sample period (and this holds in the degenerate case too, where it is 0). -/
theorem C6_correction_bounded (oldWhere : List ℤ) (oldLen newLen : ℤ)
    (t0 rate samplesPerPixel : ℚ) (h : 0 ≤ samplesPerPixel) :
    |(findCorrection oldWhere oldLen newLen t0 rate samplesPerPixel).2| ≤ samplesPerPixel := by
  unfold findCorrection
  by_cases hd : degenerateCond oldWhere oldLen newLen t0 rate samplesPerPixel
  · simp [hd, h]
  · simp only [hd, if_false]
    rw [abs_le]
    exact ⟨le_max_left _ _, max_le (by linarith) (min_le_left _ _)⟩

/-- C6 (witness for the amended bound), at the counterexample's input. -/
theorem C6_witness :
    (0:ℚ) ≤ 10 ∧ |(findCorrection [0, 10] 1 1 (1/2) 10 10).2| ≤ 10 :=
  ⟨by norm_num, C6_correction_bounded [0, 10] 1 1 (1/2) 10 10 (by norm_num)⟩

/-! ## Claim C10: the spectrogram boolean result -/

/-- C10: `GetSpectrogram` returns normally for every input (it is a total
function of its abstracted collaborators), and its boolean result is
`false` exactly when the request is a complete cache hit; otherwise it is
`true`, meaning "was recomputed", never a backing-store failure. -/
theorem C10_spectrogram_result_iff (populate : ℤ → ℤ → ℤ → List ℤ → List ℚ → List ℚ)
    (clip : SpecClip) (numPixels : ℤ) (t0 pps : ℚ) :
    (GetSpectrogram populate clip numPixels t0 pps).1 = false ↔
      specFullHitB clip numPixels t0 pps = true := by
  unfold GetSpectrogram
  by_cases h : specFullHitB clip numPixels t0 pps = true
  · simp [h]
  · simp [h]

/-! ## Claim C9: mutations bump the dirty counter and force the miss path -/

/-- C9: `MarkChanged` strictly increases the dirty counter; every modelled
mutation (`InsertSilence`, `Clear`, `Paste`, `Append`, `SetSamples`)
strictly increases it when it completes; and any cache built at the old
generation fails both the waveform `match`/full-hit tests and the
spectrogram `Matches` test afterwards, forcing the miss path for identical
view parameters. -/
theorem C9_dirty_strictly_increases (d : ℤ) (ok : Bool) (c : WaveCache) (sc : SpecCache)
    (rate pps t0 : ℚ) (numPixels : ℤ) (settings : SpectrogramSettings)
    (hc : c.dirty = d) (hsc : sc.dirty = d) :
    d < MarkChanged d ∧
    ((InsertSilenceDirty ok d).1 = true → d < (InsertSilenceDirty ok d).2) ∧
    ((ClearDirty ok d).1 = true → d < (ClearDirty ok d).2) ∧
    ((PasteDirty ok d).1 = true → d < (PasteDirty ok d).2) ∧
    ((AppendDirty ok d).1 = true → d < (AppendDirty ok d).2) ∧
    d < (SetSamplesDirty ok d).2 ∧
    matchB c (MarkChanged d) rate pps numPixels = false ∧
    fullHitB c (MarkChanged d) rate pps numPixels t0 = false ∧
    SpecCache.Matches sc (MarkChanged d) pps settings rate = false := by
  have hmc : matchB c (MarkChanged d) rate pps numPixels = false := by
    simp only [matchB, MarkChanged, hc, Bool.and_eq_false_iff]
    right
    simp only [decide_eq_false_iff_not]
    omega
  refine ⟨by simp [MarkChanged], ?_, ?_, ?_, ?_, by simp [SetSamplesDirty, MarkChanged],
    hmc, ?_, ?_⟩
  · cases ok <;> simp [InsertSilenceDirty, MarkChanged]
  · cases ok <;> simp [ClearDirty, MarkChanged]
  · cases ok <;> simp [PasteDirty, MarkChanged]
  · cases ok <;> simp [AppendDirty, MarkChanged]
  · simp [fullHitB, hmc]
  · simp only [SpecCache.Matches, MarkChanged, hsc, Bool.and_eq_false_iff]
    left; left; left; left; left
    right
    simp only [decide_eq_false_iff_not]
    omega

/-- Fixture caches for the C9 witness. -/
def c9WaveCache : WaveCache :=
  { dirty := 0, len := 1, start := 0, pps := 1, rate := 1,
    whereArr := [0, 1], min := [0], max := [0], rms := [0], bl := [0],
    numODPixels := 0, regions := [] }

def c9SpecCache : SpecCache :=
  { dirty := 0, len := 1, start := 0, pps := 1, windowType := 0, windowSize := 8,
    zeroPaddingFactor := 1, frequencyGain := 0, algorithm := SpecAlgorithm.algSTFT,
    freq := [], whereArr := [] }

def c9Settings : SpectrogramSettings :=
  { windowType := 0, windowSize := 8, zeroPaddingFactor := 1, frequencyGain := 0,
    algorithm := SpecAlgorithm.algSTFT }

/-- C9 (witness): at generation 0 with a successful mutation. -/
theorem C9_witness :
    c9WaveCache.dirty = 0 ∧ c9SpecCache.dirty = 0 ∧
    ((0:ℤ) < MarkChanged 0 ∧
     ((InsertSilenceDirty true 0).1 = true → (0:ℤ) < (InsertSilenceDirty true 0).2) ∧
     ((ClearDirty true 0).1 = true → (0:ℤ) < (ClearDirty true 0).2) ∧
     ((PasteDirty true 0).1 = true → (0:ℤ) < (PasteDirty true 0).2) ∧
     ((AppendDirty true 0).1 = true → (0:ℤ) < (AppendDirty true 0).2) ∧
     (0:ℤ) < (SetSamplesDirty true 0).2 ∧
     matchB c9WaveCache (MarkChanged 0) 1 1 1 = false ∧
     fullHitB c9WaveCache (MarkChanged 0) 1 1 1 0 = false ∧
     SpecCache.Matches c9SpecCache (MarkChanged 0) 1 c9Settings 1 = false) :=
  ⟨rfl, rfl,
    C9_dirty_strictly_increases 0 true c9WaveCache c9SpecCache 1 1 0 1 c9Settings rfl rfl⟩

/-! ## Claim C2: the full-hit path of GetWaveDisplay -/

/-- The full-hit condition exactly as the claim words it: cached dirty
equals the Clip's dirty, pitch matches under the tolerance, cached start
equals `t0`, cached length at least the requested pixel count. -/
def claimedFullHit (c : WaveCache) (dirty : ℤ) (rate pps : ℚ) (numPixels : ℤ)
    (t0 : ℚ) : Prop :=
  c.dirty = dirty ∧ |1 / pps - 1 / c.pps| * (numPixels : ℚ) < 1 / rate ∧
  c.start = t0 ∧ numPixels ≤ c.len

instance (c : WaveCache) (dirty : ℤ) (rate pps : ℚ) (numPixels : ℤ) (t0 : ℚ) :
    Decidable (claimedFullHit c dirty rate pps numPixels t0) := by
  unfold claimedFullHit
  exact inferInstance

/-- C2: for a positive requested pixel count, the code's complete-hit test
holds exactly under the claim's four conditions, and on a hit
`GetWaveDisplay` drains and clears the invalid regions, returns the cached
arrays directly from the same cache object, and reports the loading flag
as (on-demand pixel count > 0). -/
theorem C2_full_hit_exactly (sqrtQ : ℚ → ℚ) (clip : WaveClip) (numPixels : ℤ)
    (t0 pps : ℚ) (hn : 1 ≤ numPixels) :
    (fullHitB clip.cache clip.dirty clip.rate pps numPixels t0 = true ↔
      claimedFullHit clip.cache clip.dirty clip.rate pps numPixels t0) ∧
    (claimedFullHit clip.cache clip.dirty clip.rate pps numPixels t0 →
      GetWaveDisplay sqrtQ clip numPixels t0 pps =
        ⟨true,
         some ⟨(WaveCache.clearRegions (WaveCache.loadInvalidRegions clip.seq true clip.cache)).min,
               (WaveCache.clearRegions (WaveCache.loadInvalidRegions clip.seq true clip.cache)).max,
               (WaveCache.clearRegions (WaveCache.loadInvalidRegions clip.seq true clip.cache)).rms,
               (WaveCache.clearRegions (WaveCache.loadInvalidRegions clip.seq true clip.cache)).bl,
               (WaveCache.clearRegions (WaveCache.loadInvalidRegions clip.seq true clip.cache)).whereArr⟩,
         decide (0 < (WaveCache.clearRegions (WaveCache.loadInvalidRegions clip.seq true clip.cache)).numODPixels),
         { clip with cache := WaveCache.clearRegions (WaveCache.loadInvalidRegions clip.seq true clip.cache) }⟩) := by
  have hiff : fullHitB clip.cache clip.dirty clip.rate pps numPixels t0 = true ↔
      claimedFullHit clip.cache clip.dirty clip.rate pps numPixels t0 := by
    unfold fullHitB matchB ppsMatchB claimedFullHit
    simp only [Bool.and_eq_true, decide_eq_true_eq]
    constructor
    · rintro ⟨⟨⟨⟨h1, h2⟩, h3⟩, h4⟩, h5⟩
      exact ⟨h3, h1, h4, h5⟩
    · rintro ⟨h3, h1, h4, h5⟩
      refine ⟨⟨⟨⟨h1, ?_⟩, h3⟩, h4⟩, h5⟩
      omega
  refine ⟨hiff, fun h => ?_⟩
  unfold GetWaveDisplay
  rw [if_pos (hiff.mpr h)]

/-- Fixture for the C2 witness: a cache of two columns matching generation
3 at `t0 = 0`, pitch 1, rate 1, with no pending invalid regions. -/
def c2Cache : WaveCache :=
  { dirty := 3, len := 2, start := 0, pps := 1, rate := 1,
    whereArr := [0, 1, 2], min := [0, 0], max := [0, 0], rms := [0, 0],
    bl := [0, 0], numODPixels := 0, regions := [] }

def c2Seq : Sequence := ⟨100, fun _ _ => none⟩

def c2Clip : WaveClip := ⟨3, 1, c2Seq, [], c2Cache⟩

/-- C2 (witness): a one-pixel request against the fixture satisfies the
claim's conditions and the code's hit test. -/
theorem C2_witness :
    (1:ℤ) ≤ 1 ∧ claimedFullHit c2Cache 3 1 1 1 0 ∧
    fullHitB c2Cache 3 1 1 1 0 = true ∧
    (GetWaveDisplay (fun q => q) c2Clip 1 0 1).success = true := by
  have hc : claimedFullHit c2Cache 3 1 1 1 0 := by
    unfold claimedFullHit c2Cache
    norm_num
  have h := C2_full_hit_exactly (fun q => q) c2Clip 1 0 1 (le_refl 1)
  refine ⟨le_refl 1, hc, (h.1).mpr hc, ?_⟩
  rw [h.2 hc]

/-! ## Claim C4: Sequence summarizer failure fails the whole query -/

/-- C4: on the rebuild path, if the Sequence summarizer call over the final
gap `[p0, p1)` fails, `GetWaveDisplay` returns failure, forces the
`isLoadingOD` flag to `false`, and hands the caller no display arrays
(no half-filled buffer is delivered). -/
theorem C4_sequence_failure (sqrtQ : ℚ → ℚ) (clip : WaveClip) (numPixels : ℤ)
    (t0 pps : ℚ)
    (hmiss : fullHitB clip.cache clip.dirty clip.rate pps numPixels t0 = false)
    (hgap : (missRebuild sqrtQ clip numPixels t0 pps).2.1 <
            (missRebuild sqrtQ clip numPixels t0 pps).2.2)
    (hfail : clip.seq.waveDisplay
        ((missRebuild sqrtQ clip numPixels t0 pps).2.2 -
         (missRebuild sqrtQ clip numPixels t0 pps).2.1)
        (slice (missRebuild sqrtQ clip numPixels t0 pps).1.whereArr
          (missRebuild sqrtQ clip numPixels t0 pps).2.1
          ((missRebuild sqrtQ clip numPixels t0 pps).2.2 -
           (missRebuild sqrtQ clip numPixels t0 pps).2.1 + 1)) = none) :
    GetWaveDisplay sqrtQ clip numPixels t0 pps =
      ⟨false, none, false,
       { clip with cache := (missRebuild sqrtQ clip numPixels t0 pps).1 }⟩ := by
  unfold GetWaveDisplay
  rw [if_neg (by rw [hmiss]; exact Bool.false_ne_true), if_pos hgap, hfail]

/-- Fixture for the C4 witness: a clip with the default (matching-nothing)
cache, an empty append buffer, and a Sequence whose summarizer always
fails. -/
def c4Seq : Sequence := ⟨5, fun _ _ => none⟩

def c4Clip : WaveClip := ⟨0, 1, c4Seq, [], WaveCache.initial⟩

/-- C4 (witness): a one-pixel request against the failing Sequence. -/
theorem C4_witness :
    fullHitB c4Clip.cache c4Clip.dirty c4Clip.rate 1 1 0 = false ∧
    (missRebuild (fun q => q) c4Clip 1 0 1).2.1 <
      (missRebuild (fun q => q) c4Clip 1 0 1).2.2 ∧
    (GetWaveDisplay (fun q => q) c4Clip 1 0 1).success = false ∧
    (GetWaveDisplay (fun q => q) c4Clip 1 0 1).display = none ∧
    (GetWaveDisplay (fun q => q) c4Clip 1 0 1).isLoadingOD = false := by
  have hmiss : fullHitB c4Clip.cache c4Clip.dirty c4Clip.rate 1 1 0 = false := by
    simp [fullHitB, matchB, c4Clip, WaveCache.initial]
  have hreb : missRebuild (fun q => q) c4Clip 1 0 1 =
      ({ WaveCache.fresh 1 1 1 0 0 with whereArr := [0, 1] }, 0, 1) := by
    have hfw : fillWhere 1 0 0 0 1 1 = [0, 1] := by
      norm_num [fillWhere, List.range_succ]
      decide
    have hm : matchB c4Clip.cache c4Clip.dirty c4Clip.rate 1 1 = false := by
      simp [matchB, c4Clip, WaveCache.initial]
    simp only [missRebuild, hm, Bool.false_eq_true, if_false]
    norm_num [c4Clip, hfw, findA, appendBufLoop, List.range_succ]
  have hgap : (missRebuild (fun q => q) c4Clip 1 0 1).2.1 <
      (missRebuild (fun q => q) c4Clip 1 0 1).2.2 := by
    rw [hreb]
    norm_num
  have hfail : c4Clip.seq.waveDisplay
      ((missRebuild (fun q => q) c4Clip 1 0 1).2.2 -
       (missRebuild (fun q => q) c4Clip 1 0 1).2.1)
      (slice (missRebuild (fun q => q) c4Clip 1 0 1).1.whereArr
        (missRebuild (fun q => q) c4Clip 1 0 1).2.1
        ((missRebuild (fun q => q) c4Clip 1 0 1).2.2 -
         (missRebuild (fun q => q) c4Clip 1 0 1).2.1 + 1)) = none := rfl
  have h := C4_sequence_failure (fun q => q) c4Clip 1 0 1 hmiss hgap hfail
  rw [h]
  exact ⟨hmiss, hgap, rfl, rfl, rfl⟩

/-! ## Claim C8: reassignment never reuses a partial old cache -/

/-- C8: when the algorithm is the reassignment variant, either the request
is a complete cache hit and the cached buffers come back unchanged, or the
entire spectrogram buffer is recomputed from a fresh zero buffer with copy
range `[0, 0)` — no sub-range of the prior cache is copied, whatever
`Populate` does. -/
theorem C8_reassignment_no_partial_reuse
    (populate : ℤ → ℤ → ℤ → List ℤ → List ℚ → List ℚ)
    (clip : SpecClip) (numPixels : ℤ) (t0 pps : ℚ)
    (halg : clip.settings.algorithm = SpecAlgorithm.algReassignment) :
    (specFullHitB clip numPixels t0 pps = true →
      GetSpectrogram populate clip numPixels t0 pps =
        (false, clip.specCache.freq, clip.specCache.whereArr, clip)) ∧
    (specFullHitB clip numPixels t0 pps = false →
      (GetSpectrogram populate clip numPixels t0 pps).2.1 =
        populate 0 0 numPixels
          (fillWhere numPixels (1/2) 0 t0 clip.rate (clip.rate * (1 / pps)))
          (List.replicate (specHalf clip.settings * numPixels).toNat 0)) := by
  constructor
  · intro h
    unfold GetSpectrogram
    rw [if_pos h]
  · intro h
    unfold GetSpectrogram
    rw [if_neg (by rw [h]; exact Bool.false_ne_true)]
    simp [halg]

/-- Fixture for the C8 witness: reassignment settings against the default
(matching-nothing) spectrogram cache. -/
def c8Settings : SpectrogramSettings :=
  { windowType := 0, windowSize := 8, zeroPaddingFactor := 1, frequencyGain := 0,
    algorithm := SpecAlgorithm.algReassignment }

def c8SpecCache : SpecCache :=
  { dirty := -1, len := -1, start := -1, pps := 0, windowType := 0, windowSize := 0,
    zeroPaddingFactor := 0, frequencyGain := 0, algorithm := SpecAlgorithm.algSTFT,
    freq := [], whereArr := [] }

def c8Clip : SpecClip := ⟨0, 1, 0, 5, c8Settings, c8SpecCache⟩

/-- C8 (witness): a one-pixel miss under reassignment recomputes from the
fresh zero buffer. -/
theorem C8_witness :
    c8Clip.settings.algorithm = SpecAlgorithm.algReassignment ∧
    specFullHitB c8Clip 1 0 1 = false ∧
    (GetSpectrogram (fun _ _ _ _ f => f) c8Clip 1 0 1).2.1 =
      (fun (_ _ _ : ℤ) (_ : List ℤ) (f : List ℚ) => f) 0 0 1
        (fillWhere 1 (1/2) 0 0 c8Clip.rate (c8Clip.rate * (1 / 1)))
        (List.replicate (specHalf c8Clip.settings * 1).toNat 0) := by
  have hfh : specFullHitB c8Clip 1 0 1 = false := by
    simp [specFullHitB, specMatchB, c8Clip, c8SpecCache]
  exact ⟨rfl, hfh,
    (C8_reassignment_no_partial_reuse (fun _ _ _ _ f => f) c8Clip 1 0 1 rfl).2 hfh⟩

/-! ## Claim C7: the no-op and clipping behaviour of AddInvalidRegion -/

/-- Truncation of an integer rational is the integer itself. -/
lemma trunc_intCast (s : ℤ) : trunc (s : ℚ) = s := by
  unfold trunc
  split
  · exact Int.floor_intCast s
  · exact Int.ceil_intCast s

/-- Fixture for C7: a cache of 10 columns with unit pitch. -/
def c7Cache : WaveCache :=
  { dirty := 0, len := 10, start := 0, pps := 1, rate := 1,
    whereArr := [], min := [], max := [], rms := [], bl := [],
    numODPixels := 0, regions := [] }

/-- C7 (counterexample): the call `AddInvalidRegion 10 10` on the
10-column unit-pitch cache converts to the pixel endpoints 10 and 11.  The
start endpoint 10 lies on the boundary of `[0, length]`, not beyond it, and
the pitch is nonzero, so the claim requires the clipped range `[10, 10]` to
be inserted; the code instead drops the range (its off-cache test uses
`>= length`, not `> length`) and the region set stays empty. -/
theorem C7_counterexample :
    c7Cache.invalStartOf 10 = 10 ∧ c7Cache.invalEndOf 10 = 11 ∧
    c7Cache.pps ≠ 0 ∧
    ¬ ((c7Cache.invalStartOf 10 < 0 ∧ c7Cache.invalEndOf 10 < 0) ∨
       (c7Cache.len < c7Cache.invalStartOf 10 ∧ c7Cache.len < c7Cache.invalEndOf 10)) ∧
    (c7Cache.AddInvalidRegion 10 10).regions = [] ∧
    insertRegion c7Cache.regions (clipPixel c7Cache.len (c7Cache.invalStartOf 10))
      (clipPixel c7Cache.len (c7Cache.invalEndOf 10)) = [⟨10, 10⟩] := by
  have hpps : c7Cache.pps ≠ 0 := by norm_num [c7Cache]
  have his : c7Cache.invalStartOf 10 = 10 := by
    have harg : (((10:ℤ):ℚ) - c7Cache.start * c7Cache.rate) / (c7Cache.rate / c7Cache.pps) =
        ((10:ℤ):ℚ) := by norm_num [c7Cache]
    unfold WaveCache.invalStartOf
    rw [harg, trunc_intCast]
  have hie : c7Cache.invalEndOf 10 = 11 := by
    have harg : (((10:ℤ):ℚ) - c7Cache.start * c7Cache.rate) / (c7Cache.rate / c7Cache.pps) =
        ((10:ℤ):ℚ) := by norm_num [c7Cache]
    unfold WaveCache.invalEndOf
    rw [harg, trunc_intCast]
    decide
  have hdrop : (c7Cache.AddInvalidRegion 10 10).regions = [] := by
    unfold WaveCache.AddInvalidRegion
    rw [if_neg hpps, if_pos (by rw [his, hie]; right; constructor <;> decide)]
    rfl
  refine ⟨his, hie, hpps, ?_, hdrop, ?_⟩
  · rw [his, hie]
    decide
  · rw [his, hie]
    decide

/-- C7 (amended): `AddInvalidRegion` is a no-op when the cache's
pixels-per-second is zero, and likewise when both converted pixel endpoints
are below 0 or both are at or past `length` (note: `>= length`, so the
boundary index `length` itself is also dropped, not only strictly-beyond
endpoints); in all remaining cases the converted range is clipped to
`[0, length]` and inserted/merged. -/
theorem C7_addInvalidRegion_cases (c : WaveCache) (sampleStart sampleEnd : ℤ) :
    (c.pps = 0 → c.AddInvalidRegion sampleStart sampleEnd = c) ∧
    (c.pps ≠ 0 →
      ((c.invalStartOf sampleStart < 0 ∧ c.invalEndOf sampleEnd < 0) ∨
       (c.len ≤ c.invalStartOf sampleStart ∧ c.len ≤ c.invalEndOf sampleEnd)) →
      c.AddInvalidRegion sampleStart sampleEnd = c) ∧
    (c.pps ≠ 0 →
      ¬ ((c.invalStartOf sampleStart < 0 ∧ c.invalEndOf sampleEnd < 0) ∨
         (c.len ≤ c.invalStartOf sampleStart ∧ c.len ≤ c.invalEndOf sampleEnd)) →
      c.AddInvalidRegion sampleStart sampleEnd =
        { c with regions :=
            (insertAndMerge c.regions (clipPixel c.len (c.invalStartOf sampleStart))
              (clipPixel c.len (c.invalEndOf sampleEnd))) }) := by
  refine ⟨fun h => ?_, fun h1 h2 => ?_, fun h1 h2 => ?_⟩
  · unfold WaveCache.AddInvalidRegion
    rw [if_pos h]
  · unfold WaveCache.AddInvalidRegion
    rw [if_neg h1, if_pos h2]
  · unfold WaveCache.AddInvalidRegion
    rw [if_neg h1, if_neg h2]

/-- C7 (witness): an in-range request on the fixture is clipped and
inserted. -/
theorem C7_witness :
    c7Cache.pps ≠ 0 ∧
    ¬ ((c7Cache.invalStartOf 3 < 0 ∧ c7Cache.invalEndOf 5 < 0) ∨
       (c7Cache.len ≤ c7Cache.invalStartOf 3 ∧ c7Cache.len ≤ c7Cache.invalEndOf 5)) ∧
    c7Cache.AddInvalidRegion 3 5 =
      { c7Cache with regions :=
          (insertAndMerge c7Cache.regions (clipPixel c7Cache.len (c7Cache.invalStartOf 3))
            (clipPixel c7Cache.len (c7Cache.invalEndOf 5))) } := by
  have hpps : c7Cache.pps ≠ 0 := by norm_num [c7Cache]
  have his : c7Cache.invalStartOf 3 = 3 := by
    have harg : (((3:ℤ):ℚ) - c7Cache.start * c7Cache.rate) / (c7Cache.rate / c7Cache.pps) =
        ((3:ℤ):ℚ) := by norm_num [c7Cache]
    unfold WaveCache.invalStartOf
    rw [harg, trunc_intCast]
  have hie : c7Cache.invalEndOf 5 = 6 := by
    have harg : (((5:ℤ):ℚ) - c7Cache.start * c7Cache.rate) / (c7Cache.rate / c7Cache.pps) =
        ((5:ℤ):ℚ) := by norm_num [c7Cache]
    unfold WaveCache.invalEndOf
    rw [harg, trunc_intCast]
    decide
  have hguard : ¬ ((c7Cache.invalStartOf 3 < 0 ∧ c7Cache.invalEndOf 5 < 0) ∨
      (c7Cache.len ≤ c7Cache.invalStartOf 3 ∧ c7Cache.len ≤ c7Cache.invalEndOf 5)) := by
    rw [his, hie]
    decide
  exact ⟨hpps, hguard, (C7_addInvalidRegion_cases c7Cache 3 5).2.2 hpps hguard⟩

/-! ## Claim C3: the region-set invariant -/

/-- The adjacency test between stored regions is symmetric. -/
lemma touchesR_symm (a b : InvalidRegion) : touchesR a b = touchesR b a := by
  simp only [touchesR, touches]
  rw [decide_eq_decide.mpr (show (a.start ≤ b.stop + 1) ↔ (a.start - 1 ≤ b.stop) by omega),
    decide_eq_decide.mpr (show (b.start - 1 ≤ a.stop) ↔ (b.start ≤ a.stop + 1) by omega),
    Bool.and_comm]

/-- A proper region that touches neither a stored region nor the incoming
range does not touch their union, provided the two touch each other. -/
lemma hull_not_touch (t r : InvalidRegion) (s e : ℤ) (ht : t.start ≤ t.stop)
    (h1 : touchesR t r = false) (h2 : touches t s e = false)
    (h3 : touches r s e = true) :
    touchesR t (unionInto r s e) = false := by
  simp only [touchesR, touches, unionInto, Bool.and_eq_false_iff, Bool.and_eq_true,
    decide_eq_false_iff_not, decide_eq_true_eq] at *
  omega

/-- The first-loop scan finds nothing exactly when no region touches. -/
lemma mergeFirst_eq_none {regs : List InvalidRegion} {s e : ℤ} :
    mergeFirst regs s e = none ↔ ∀ r ∈ regs, touches r s e = false := by
  induction regs with
  | nil => simp [mergeFirst]
  | cons r rs ih =>
    by_cases h : touches r s e = true
    · simp [mergeFirst, h]
    · rw [Bool.not_eq_true] at h
      cases hm : mergeFirst rs s e with
      | none =>
        simp only [mergeFirst, h, Bool.false_eq_true, if_false, hm]
        simp only [List.mem_cons, true_iff]
        rintro t (rfl | hmem)
        · exact h
        · exact ih.mp hm t hmem
      | some rs2 =>
        simp only [mergeFirst, h, Bool.false_eq_true, if_false, hm]
        constructor
        · intro habs
          exact absurd habs (by simp)
        · intro hall
          have : mergeFirst rs s e = none := ih.mpr fun t hmem => hall t (by simp [hmem])
          rw [this] at hm
          exact absurd hm (by simp)

/-- Every member of the insertion result is the new range, an old region,
or the union of the new range with a touching old region. -/
lemma mem_insertRegion {regs : List InvalidRegion} {s e : ℤ} {t : InvalidRegion}
    (h : t ∈ insertRegion regs s e) :
    t = ⟨s, e⟩ ∨ t ∈ regs ∨
      ∃ r ∈ regs, touches r s e = true ∧ t = unionInto r s e := by
  induction regs with
  | nil =>
    simp [insertRegion, mergeFirst] at h
    exact Or.inl h
  | cons r rs ih =>
    by_cases hr : touches r s e = true
    · have : insertRegion (r :: rs) s e = unionInto r s e :: rs := by
        simp [insertRegion, mergeFirst, hr]
      rw [this] at h
      rcases List.mem_cons.mp h with rfl | hmem
      · exact Or.inr (Or.inr ⟨r, by simp, hr, rfl⟩)
      · exact Or.inr (Or.inl (by simp [hmem]))
    · rw [Bool.not_eq_true] at hr
      cases hm : mergeFirst rs s e with
      | none =>
        have : insertRegion (r :: rs) s e = ⟨s, e⟩ :: r :: rs := by
          simp [insertRegion, mergeFirst, hr, hm]
        rw [this] at h
        rcases List.mem_cons.mp h with rfl | hmem
        · exact Or.inl rfl
        · exact Or.inr (Or.inl hmem)
      | some rs2 =>
        have : insertRegion (r :: rs) s e = r :: rs2 := by
          simp [insertRegion, mergeFirst, hr, hm]
        rw [this] at h
        rcases List.mem_cons.mp h with rfl | hmem
        · exact Or.inr (Or.inl (by simp))
        · have hrs2 : t ∈ insertRegion rs s e := by
            simp [insertRegion, hm, hmem]
          rcases ih hrs2 with h1 | h2 | ⟨r0, hr0, ht0, he0⟩
          · exact Or.inl h1
          · exact Or.inr (Or.inl (by simp [h2]))
          · exact Or.inr (Or.inr ⟨r0, by simp [hr0], ht0, he0⟩)

/-- Insertion preserves properness of all regions. -/
lemma properRegs_insertRegion {regs : List InvalidRegion} {s e : ℤ}
    (hse : s ≤ e) (hp : properRegs regs) : properRegs (insertRegion regs s e) := by
  intro t ht
  rcases mem_insertRegion ht with rfl | hmem | ⟨r0, hr0, _, rfl⟩
  · exact hse
  · exact hp t hmem
  · have := hp r0 hr0
    simp only [unionInto]
    omega

/-- Insertion preserves the separation invariant when the incoming clipped
range touches at most one stored region. -/
lemma separated_insertRegion {regs : List InvalidRegion} {s e : ℤ}
    (_hse : s ≤ e) (hp : properRegs regs) (hsep : separated regs)
    (hcnt : regs.countP (fun r => touches r s e) ≤ 1) :
    separated (insertRegion regs s e) := by
  induction regs with
  | nil =>
    simp [insertRegion, mergeFirst, separated]
  | cons r rs ih =>
    have hpr : r.start ≤ r.stop := hp r (by simp)
    have hprs : properRegs rs := fun t ht => hp t (by simp [ht])
    have hsep1 : ∀ t ∈ rs, touchesR r t = false :=
      fun t ht => (List.pairwise_cons.mp hsep).1 t ht
    have hseprs : separated rs := (List.pairwise_cons.mp hsep).2
    by_cases hr : touches r s e = true
    · have heq : insertRegion (r :: rs) s e = unionInto r s e :: rs := by
        simp [insertRegion, mergeFirst, hr]
      have hcnt0 : ∀ t ∈ rs, touches t s e = false := by
        rw [List.countP_cons_of_pos _ _ (by simpa using hr)] at hcnt
        have : rs.countP (fun r => touches r s e) = 0 := by omega
        intro t ht
        simpa using List.countP_eq_zero.mp this t ht
      rw [heq]
      refine List.pairwise_cons.mpr ⟨fun t ht => ?_, hseprs⟩
      rw [touchesR_symm]
      exact hull_not_touch t r s e (hprs t ht)
        (by rw [touchesR_symm]; exact hsep1 t ht) (hcnt0 t ht) hr
    · rw [Bool.not_eq_true] at hr
      have hcnt' : rs.countP (fun r => touches r s e) ≤ 1 := by
        rw [List.countP_cons_of_neg _ _ (by simp [hr])] at hcnt
        exact hcnt
      cases hm : mergeFirst rs s e with
      | none =>
        have heq : insertRegion (r :: rs) s e = ⟨s, e⟩ :: r :: rs := by
          simp [insertRegion, mergeFirst, hr, hm]
        have hall : ∀ t ∈ rs, touches t s e = false := mergeFirst_eq_none.mp hm
        rw [heq]
        refine List.pairwise_cons.mpr ⟨fun t ht => ?_, hsep⟩
        have htse : touches t s e = false := by
          rcases List.mem_cons.mp ht with rfl | hmem
          · exact hr
          · exact hall t hmem
        rw [touchesR_symm]
        exact htse
      | some rs2 =>
        have heq : insertRegion (r :: rs) s e = r :: rs2 := by
          simp [insertRegion, mergeFirst, hr, hm]
        have hrs2 : rs2 = insertRegion rs s e := by
          simp [insertRegion, hm]
        rw [heq, hrs2]
        refine List.pairwise_cons.mpr ⟨fun t ht => ?_, ih hprs hseprs hcnt'⟩
        rcases mem_insertRegion ht with rfl | hmem | ⟨r0, hr0, ht0, rfl⟩
        · exact hr
        · exact hsep1 t hmem
        · exact hull_not_touch r r0 s e hpr (hsep1 r0 hr0) hr ht0

/-- The second pass leaves an already-separated list unchanged. -/
lemma mergeAdjacent_no_touch (eI : ℤ) :
    ∀ (rs : List InvalidRegion) (prev : InvalidRegion),
      List.Chain' (fun a b => touchesR a b = false) (prev :: rs) →
      mergeAdjacent eI prev rs = prev :: rs := by
  intro rs
  induction rs with
  | nil => intro prev _; rfl
  | cons r rs2 ih =>
    intro prev h
    have h1 : touchesR prev r = false := (List.chain'_cons.mp h).1
    have h2 : List.Chain' (fun a b => touchesR a b = false) (r :: rs2) :=
      (List.chain'_cons.mp h).2
    unfold mergeAdjacent
    rw [touchesR_symm r prev, h1]
    simp only [Bool.false_eq_true, if_false]
    by_cases he : eI < r.start
    · rw [if_pos he]
    · rw [if_neg he, ih r h2]

/-- The whole second pass is the identity on a separated list. -/
lemma mergePass_of_separated {regs : List InvalidRegion} (eI : ℤ)
    (h : separated regs) : mergePass regs eI = regs := by
  cases regs with
  | nil => rfl
  | cons r rs => exact mergeAdjacent_no_touch eI rs r (List.Pairwise.chain' h)

/-- Truncation toward zero is monotone. -/
lemma trunc_mono {a b : ℚ} (h : a ≤ b) : trunc a ≤ trunc b := by
  unfold trunc
  by_cases ha : 0 ≤ a <;> by_cases hb : 0 ≤ b
  · rw [if_pos ha, if_pos hb]
    exact Int.floor_mono h
  · exact absurd (le_trans ha h) hb
  · rw [if_neg ha, if_pos hb]
    calc ⌈a⌉ ≤ 0 := Int.ceil_le.mpr (by push_cast; linarith)
    _ ≤ ⌊b⌋ := Int.floor_nonneg.mpr hb
  · rw [if_neg ha, if_neg hb]
    exact Int.ceil_mono h

/-- The boundary clipping is monotone on caches of non-negative length. -/
lemma clipPixel_mono {len x y : ℤ} (hlen : 0 ≤ len) (h : x ≤ y) :
    clipPixel len x ≤ clipPixel len y := by
  unfold clipPixel
  split_ifs <;> omega

/-- `AddInvalidRegion` on a cache with unit pitch (`pps = rate`, origin 0)
reduces to the pixel-level insertion of `[s, e+1]`. -/
lemma addInvalid_unit (c : WaveCache) (s e : ℤ)
    (hpps : c.pps = 1) (hrate : c.rate = 1) (hstart : c.start = 0)
    (hguard : ¬ ((s < 0 ∧ e + 1 < 0) ∨ (c.len ≤ s ∧ c.len ≤ e + 1))) :
    c.AddInvalidRegion s e =
      { c with regions :=
          (insertAndMerge c.regions (clipPixel c.len s) (clipPixel c.len (e + 1))) } := by
  have hS : c.invalStartOf s = s := by
    unfold WaveCache.invalStartOf
    rw [hrate, hpps, hstart]
    norm_num [trunc_intCast]
  have hE : c.invalEndOf e = e + 1 := by
    unfold WaveCache.invalEndOf
    rw [hrate, hpps, hstart]
    norm_num [trunc_intCast]
  unfold WaveCache.AddInvalidRegion
  rw [hS, hE, if_neg (by rw [hpps]; norm_num), if_neg hguard]

/-- Fixture for C3: a 200-column cache with unit pitch and no regions. -/
def c3Cache : WaveCache :=
  { dirty := 0, len := 200, start := 0, pps := 1, rate := 1,
    whereArr := [], min := [], max := [], rms := [], bl := [],
    numODPixels := 0, regions := [] }

lemma c3_step_a : c3Cache.AddInvalidRegion 0 4 =
    { c3Cache with regions := [⟨0, 5⟩] } := by
  rw [addInvalid_unit c3Cache 0 4 rfl rfl rfl (by decide)]
  refine congrArg (fun r => { c3Cache with regions := r }) ?_
  decide

lemma c3_step_b : ({ c3Cache with regions := [⟨0, 5⟩] } : WaveCache).AddInvalidRegion 100 109 =
    { c3Cache with regions := [⟨100, 110⟩, ⟨0, 5⟩] } := by
  rw [addInvalid_unit _ 100 109 rfl rfl rfl (by decide)]
  refine congrArg (fun r => { c3Cache with regions := r }) ?_
  decide

lemma c3_step_c :
    ({ c3Cache with regions := [⟨100, 110⟩, ⟨0, 5⟩] } : WaveCache).AddInvalidRegion 10 19 =
    { c3Cache with regions := [⟨10, 20⟩, ⟨100, 110⟩, ⟨0, 5⟩] } := by
  rw [addInvalid_unit _ 10 19 rfl rfl rfl (by decide)]
  refine congrArg (fun r => { c3Cache with regions := r }) ?_
  decide

lemma c3_step_d :
    ({ c3Cache with regions := [⟨10, 20⟩, ⟨100, 110⟩, ⟨0, 5⟩] } : WaveCache).AddInvalidRegion 4 11 =
    { c3Cache with regions := [⟨4, 20⟩, ⟨100, 110⟩, ⟨0, 5⟩] } := by
  rw [addInvalid_unit _ 4 11 rfl rfl rfl (by decide)]
  refine congrArg (fun r => { c3Cache with regions := r }) ?_
  decide

lemma c3_step_e : c3Cache.AddInvalidRegion 10 19 =
    { c3Cache with regions := [⟨10, 20⟩] } := by
  rw [addInvalid_unit c3Cache 10 19 rfl rfl rfl (by decide)]
  refine congrArg (fun r => { c3Cache with regions := r }) ?_
  decide

lemma c3_step_f : ({ c3Cache with regions := [⟨10, 20⟩] } : WaveCache).AddInvalidRegion 19 29 =
    { c3Cache with regions := [⟨10, 30⟩] } := by
  rw [addInvalid_unit _ 19 29 rfl rfl rfl (by decide)]
  refine congrArg (fun r => { c3Cache with regions := r }) ?_
  decide

/-- C3 (counterexample): the invariant does not survive every order of
`AddInvalidRegion` calls.  On the unit-pitch 200-column cache, inserting
the sample ranges giving pixel regions `[0,5]`, `[100,110]`, `[10,20]` and
then `[4,12]` (the call `AddInvalidRegion 4 11`) leaves the region list
`[[4,20], [100,110], [0,5]]`, in which `[4,20]` overlaps `[0,5]`: the new
range bridged two regions that are not index-adjacent in the container, the
first loop merged it into `[10,20]` only, and the neighbour-merge pass
exited early.  (The source comments concede the pass assumes in-order
arrivals.) -/
theorem C3_counterexample :
    ¬ separated ((((c3Cache.AddInvalidRegion 0 4).AddInvalidRegion 100 109).AddInvalidRegion
        10 19).AddInvalidRegion 4 11).regions := by
  rw [c3_step_a, c3_step_b, c3_step_c, c3_step_d]
  intro hsep
  have h := (List.pairwise_cons.mp hsep).1 ⟨0, 5⟩ (by simp)
  have ht : touchesR ⟨4, 20⟩ ⟨0, 5⟩ = true := by decide
  rw [ht] at h
  exact absurd h (by decide)

/-- C3 (amended): the pairwise non-overlapping/non-adjacent invariant is
preserved by every `AddInvalidRegion` call whose converted, clipped pixel
range touches (within one pixel, inclusive) at most one of the held
regions; a call that bridges two non-index-adjacent regions can leave an
overlap.  The two documented example scenarios do hold: pixel regions
`[10,20]` then `[19,30]` leave the single region `[10,30]`, and `[0,5]`
then `[100,110]` leave two disjoint, separated regions. -/
theorem C3_region_invariant (c : WaveCache) (sampleStart sampleEnd : ℤ)
    (hpps : 0 < c.pps) (hrate : 0 < c.rate) (hlen : 0 ≤ c.len)
    (hse : sampleStart ≤ sampleEnd)
    (hp : properRegs c.regions) (hsep : separated c.regions)
    (hcnt : c.regions.countP
        (fun r => touches r (clipPixel c.len (c.invalStartOf sampleStart))
          (clipPixel c.len (c.invalEndOf sampleEnd))) ≤ 1) :
    (separated (c.AddInvalidRegion sampleStart sampleEnd).regions ∧
     properRegs (c.AddInvalidRegion sampleStart sampleEnd).regions) ∧
    ((c3Cache.AddInvalidRegion 10 19).AddInvalidRegion 19 29).regions = [⟨10, 30⟩] ∧
    ((c3Cache.AddInvalidRegion 0 4).AddInvalidRegion 100 109).regions =
      [⟨100, 110⟩, ⟨0, 5⟩] ∧
    separated ((c3Cache.AddInvalidRegion 0 4).AddInvalidRegion 100 109).regions := by
  have hq : ((sampleStart : ℚ) - c.start * c.rate) / (c.rate / c.pps) ≤
      ((sampleEnd : ℚ) - c.start * c.rate) / (c.rate / c.pps) := by
    have hsppos : (0:ℚ) < c.rate / c.pps := div_pos hrate hpps
    refine (div_le_div_iff_of_pos_right hsppos).mpr ?_
    have : (sampleStart : ℚ) ≤ (sampleEnd : ℚ) := by exact_mod_cast hse
    linarith
  have hie : c.invalStartOf sampleStart ≤ c.invalEndOf sampleEnd := by
    unfold WaveCache.invalStartOf WaveCache.invalEndOf
    have := trunc_mono hq
    omega
  have hclip : clipPixel c.len (c.invalStartOf sampleStart) ≤
      clipPixel c.len (c.invalEndOf sampleEnd) := clipPixel_mono hlen hie
  have hmain : separated (c.AddInvalidRegion sampleStart sampleEnd).regions ∧
      properRegs (c.AddInvalidRegion sampleStart sampleEnd).regions := by
    unfold WaveCache.AddInvalidRegion
    rw [if_neg (ne_of_gt hpps)]
    by_cases hg : (c.invalStartOf sampleStart < 0 ∧ c.invalEndOf sampleEnd < 0) ∨
        (c.len ≤ c.invalStartOf sampleStart ∧ c.len ≤ c.invalEndOf sampleEnd)
    · rw [if_pos hg]
      exact ⟨hsep, hp⟩
    · rw [if_neg hg]
      have hsep' := separated_insertRegion hclip hp hsep hcnt
      have hprop' := properRegs_insertRegion hclip hp
      show separated (insertAndMerge c.regions _ _) ∧ properRegs (insertAndMerge c.regions _ _)
      unfold insertAndMerge
      rw [mergePass_of_separated _ hsep']
      exact ⟨hsep', hprop'⟩
  refine ⟨hmain, ?_, ?_, ?_⟩
  · rw [c3_step_e, c3_step_f]
  · rw [c3_step_a, c3_step_b]
  · rw [c3_step_a, c3_step_b]
    show separated [⟨100, 110⟩, ⟨0, 5⟩]
    exact List.Pairwise.cons
      (fun b hb => by rw [List.mem_singleton.mp hb]; decide)
      (List.pairwise_singleton _ _)

/-- C3 (witness): a first insertion into the empty region set. -/
theorem C3_witness :
    (0:ℚ) < c3Cache.pps ∧ (0:ℚ) < c3Cache.rate ∧ (0:ℤ) ≤ c3Cache.len ∧
    properRegs c3Cache.regions ∧ separated c3Cache.regions ∧
    c3Cache.regions.countP
      (fun r => touches r (clipPixel c3Cache.len (c3Cache.invalStartOf 0))
        (clipPixel c3Cache.len (c3Cache.invalEndOf 4))) ≤ 1 ∧
    separated (c3Cache.AddInvalidRegion 0 4).regions := by
  have h1 : (0:ℚ) < c3Cache.pps := by norm_num [c3Cache]
  have h2 : (0:ℚ) < c3Cache.rate := by norm_num [c3Cache]
  have h3 : (0:ℤ) ≤ c3Cache.len := by decide
  have h4 : properRegs c3Cache.regions := by intro r hr; simp [c3Cache] at hr
  have h5 : separated c3Cache.regions := List.Pairwise.nil
  have h6 : c3Cache.regions.countP
      (fun r => touches r (clipPixel c3Cache.len (c3Cache.invalStartOf 0))
        (clipPixel c3Cache.len (c3Cache.invalEndOf 4))) ≤ 1 := by
    simp [c3Cache]
  exact ⟨h1, h2, h3, h4, h5, h6,
    (C3_region_invariant c3Cache 0 4 h1 h2 h3 (by decide) h4 h5 h6).1.1⟩

end WaveClipSpec
